import Mathlib

/-!
Shallow embedding of the project-registry state machine of the
code-to-HTML generator (App component in `src/unnamed/part_000` and the
editor logic in `src/components/EditorView.tsx`), together with proofs of
the specification's claims about it.

The JS `Record<string, ProcessedFile>` is modelled as an association list
from path keys to entries; `{...prev, [path]: x}` is modelled by
`Registry.set`, which overwrites the entry in place when the key is
present and appends it otherwise.
-/

set_option maxHeartbeats 1000000

/-- `ProjectFile` from `services/geminiService` as used by the App:
a named source file with its textual content (field `code` in the source). -/
structure ProjectFile where
  name : String
  code : String
deriving Repr, DecidableEq

/-- `ProcessedFile` from `src/unnamed/part_000`: one generation unit. -/
structure ProcessedFile where
  name : String
  path : String
  sourceFiles : List ProjectFile
  generatedHtml : String
deriving Repr, DecidableEq

/-- The registry: the JS object keyed by path, as an association list. -/
abbrev Registry := List (String × ProcessedFile)

/-- Key lookup, as JS property access `prev[path]`. -/
def Registry.find? (r : Registry) (p : String) : Option ProcessedFile :=
  (List.find? (fun e => e.1 == p) r).map Prod.snd

/-- JS object spread `{...prev, [path]: f}`: overwrite in place if the key
exists, append otherwise. -/
def Registry.set (r : Registry) (p : String) (f : ProcessedFile) : Registry :=
  if r.any (fun e => e.1 == p) then
    r.map (fun e => if e.1 == p then (p, f) else e)
  else
    r ++ [(p, f)]

/-- The App state: `processedFiles` plus the `activeFile` pointer. -/
structure AppState where
  processedFiles : Registry
  activeFile : Option String
deriving Repr, DecidableEq

/-- The empty initial state (`useState({})`, `useState(null)`). -/
def AppState.initial : AppState := ⟨[], none⟩

/-- `handleGenerationStart` (the spec's `createEntry`): inserts a fresh
entry with empty output at `path` and makes it active. -/
def handleGenerationStart (s : AppState) (name path : String)
    (sourceFiles : List ProjectFile) : AppState :=
  let newFile : ProcessedFile :=
    { name := name, path := path, sourceFiles := sourceFiles, generatedHtml := "" }
  { processedFiles := s.processedFiles.set newFile.path newFile
    activeFile := some newFile.path }

/-- `handleAddFilesToProject` (the spec's `appendSourceFiles`): no-op when
the path is absent or no new file has a fresh name; otherwise appends the
uniquely-named subset and resets `generatedHtml` to `""`. -/
def handleAddFilesToProject (s : AppState) (projectPath : String)
    (newFiles : List ProjectFile) : AppState :=
  match s.processedFiles.find? projectPath with
  | none => s
  | some project =>
    let existingFileNames := project.sourceFiles.map (fun f => f.name)
    let uniqueNewFiles := newFiles.filter (fun f => !existingFileNames.contains f.name)
    if uniqueNewFiles.isEmpty then s
    else
      { s with
        processedFiles := s.processedFiles.set projectPath
          { project with
            sourceFiles := project.sourceFiles ++ uniqueNewFiles
            generatedHtml := "" } }

/-- `handleStreamUpdate` (the spec's `appendOutputChunk`): concatenates the
chunk onto the entry's accumulated output; no-op when the path is absent. -/
def handleStreamUpdate (s : AppState) (path htmlChunk : String) : AppState :=
  match s.processedFiles.find? path with
  | none => s
  | some existingFile =>
    { s with
      processedFiles := s.processedFiles.set path
        { existingFile with
          generatedHtml := existingFile.generatedHtml ++ htmlChunk } }

/-- `handleReset` (the spec's `reset`): clears the registry and the
active pointer. -/
def handleReset (_s : AppState) : AppState := ⟨[], none⟩

/-! Basic lemmas about `Registry.set` and `Registry.find?`. -/

theorem find?_overwrite_self (r : Registry) (p : String) (f : ProcessedFile)
    (hany : r.any (fun e => e.1 == p) = true) :
    List.find? (fun e => e.1 == p) (r.map (fun e => if e.1 == p then (p, f) else e)) =
      some (p, f) := by
  induction r with
  | nil => simp at hany
  | cons e r ih =>
    by_cases he : (e.1 == p) = true
    · rw [List.map_cons, if_pos he, List.find?_cons_of_pos _ (by simp)]
    · have he' : (e.1 == p) = false := by simpa using he
      rw [List.map_cons, if_neg (by simp [he']), List.find?_cons_of_neg _ (by simp [he'])]
      exact ih (by simpa [List.any_cons, he'] using hany)

theorem find?_overwrite_ne (r : Registry) (p q : String) (f : ProcessedFile)
    (hqp : q ≠ p) :
    List.find? (fun e => e.1 == q) (r.map (fun e => if e.1 == p then (p, f) else e)) =
      List.find? (fun e => e.1 == q) r := by
  induction r with
  | nil => simp
  | cons e r ih =>
    by_cases he : (e.1 == p) = true
    · have hep : e.1 = p := eq_of_beq he
      have heq : (e.1 == q) = false := by simp [hep]; exact fun h => hqp h.symm
      rw [List.map_cons, if_pos he, List.find?_cons_of_neg _ (by simp; exact fun h => hqp h.symm),
        List.find?_cons_of_neg _ (by simp [heq])]
      exact ih
    · have he' : (e.1 == p) = false := by simpa using he
      rw [List.map_cons, if_neg (by simp [he'])]
      by_cases hq : (e.1 == q) = true
      · rw [List.find?_cons_of_pos _ (by simp [hq]), List.find?_cons_of_pos _ (by simp [hq])]
      · have hq' : (e.1 == q) = false := by simpa using hq
        rw [List.find?_cons_of_neg _ (by simp [hq']), List.find?_cons_of_neg _ (by simp [hq'])]
        exact ih

theorem find?_append_single (r : Registry) (p q : String) (f : ProcessedFile) :
    List.find? (fun e => e.1 == q) (r ++ [(p, f)]) =
      match List.find? (fun e => e.1 == q) r with
      | some e => some e
      | none => if p == q then some (p, f) else none := by
  induction r with
  | nil =>
    simp only [List.nil_append]
    by_cases h : (p == q) = true
    · rw [List.find?_cons_of_pos _ (by simpa using h)]
      simp [h]
    · have h' : (p == q) = false := by simpa using h
      rw [List.find?_cons_of_neg _ (by simpa using h)]
      simp [h']
  | cons e r ih =>
    by_cases hq : (e.1 == q) = true
    · rw [List.cons_append, List.find?_cons_of_pos _ (by simp [hq]),
        List.find?_cons_of_pos _ (by simp [hq])]
    · have hq' : (e.1 == q) = false := by simpa using hq
      rw [List.cons_append, List.find?_cons_of_neg _ (by simp [hq']),
        List.find?_cons_of_neg _ (by simp [hq'])]
      exact ih

theorem any_eq_isSome_find? (r : Registry) (p : String) :
    r.any (fun e => e.1 == p) = (List.find? (fun e => e.1 == p) r).isSome := by
  induction r with
  | nil => simp
  | cons e r ih =>
    by_cases he : (e.1 == p) = true
    · rw [List.find?_cons_of_pos _ (by simp [he])]
      simp [List.any_cons, he]
    · have he' : (e.1 == p) = false := by simpa using he
      rw [List.find?_cons_of_neg _ (by simp [he'])]
      simp [List.any_cons, he', ih]

theorem Registry.find?_set_self (r : Registry) (p : String) (f : ProcessedFile) :
    (r.set p f).find? p = some f := by
  unfold Registry.set Registry.find?
  by_cases hany : r.any (fun e => e.1 == p) = true
  · rw [if_pos hany, find?_overwrite_self r p f hany]
    rfl
  · rw [if_neg hany, find?_append_single r p p f]
    have hnone : List.find? (fun e => e.1 == p) r = none := by
      cases h : List.find? (fun e => e.1 == p) r
      · rfl
      · exact absurd (by rw [any_eq_isSome_find?, h]; rfl) hany
    simp [hnone]

theorem Registry.find?_set_ne (r : Registry) (p q : String) (f : ProcessedFile)
    (hqp : q ≠ p) : (r.set p f).find? q = r.find? q := by
  unfold Registry.set Registry.find?
  by_cases hany : r.any (fun e => e.1 == p) = true
  · rw [if_pos hany, find?_overwrite_ne r p q f hqp]
  · rw [if_neg hany, find?_append_single r p q f]
    have hpq : (p == q) = false := by simp; exact fun h => hqp h.symm
    cases h : List.find? (fun e => e.1 == q) r
    · simp [hpq]
    · simp

/-! The editor-side state and handlers (`src/components/EditorView.tsx`). -/

/-- The input/feedback state held by the EditorView component. -/
structure EditorState where
  pastedCode : String
  inputFileName : String
  validationError : Option String
  error : Option String
  imagePreview : Option String
  imageBase64 : Option String
  imageMimeType : Option String
deriving Repr, DecidableEq

/-- `processPastedCode`: wraps the pasted code into a single `ProjectFile`
and starts a generation keyed by the file name. -/
def processPastedCode (app : AppState) (code name : String) : AppState :=
  let projectFiles : List ProjectFile := [{ name := name, code := code }]
  handleGenerationStart app name name projectFiles

/-- JS `String.prototype.trim()`: drop leading and trailing whitespace
from the string's character sequence. -/
def jsTrim (s : String) : String :=
  String.mk
    (((s.data.dropWhile Char.isWhitespace).reverse.dropWhile Char.isWhitespace).reverse)

/-- JS `fileName.includes(".")`: the single-character needle "." occurs in
the string. -/
def jsIncludesDot (s : String) : Bool :=
  s.data.any (fun c => c == '.')

/-- `handleGenerateFromText`: clears the validation message, validates the
pasted code (non-blank under `trim`) and the file name (non-blank,
`includes(".")`), and on success hands off to `processPastedCode`; on
failure only the validation message changes. -/
def handleGenerateFromText (app : AppState) (ed : EditorState) :
    AppState × EditorState :=
  let ed0 := { ed with validationError := none }
  if jsTrim ed.pastedCode == "" then
    (app, { ed0 with validationError := some "Please paste some code to convert." })
  else if jsTrim ed.inputFileName == "" || !(jsIncludesDot ed.inputFileName) then
    let msg := "Please provide a valid file name with an extension (e.g., script.js)."
    (app, { ed0 with validationError := some msg })
  else
    (processPastedCode app ed.pastedCode ed.inputFileName, ed0)

/-- The guard of the generation `useEffect`: run only when there is an
active file with at least one source file and empty accumulated output. -/
def shouldGenerate : Option ProcessedFile → Bool
  | none => false
  | some f => decide (0 < f.sourceFiles.length) && (f.generatedHtml == "")

/-- Number of invocations of `generateHtmlForProjectStream` issued by one
run of the generation effect: the body calls the service exactly once when
the guard holds, and not at all otherwise. -/
def effectInvocations (activeFile : Option ProcessedFile) : Nat :=
  if shouldGenerate activeFile then 1 else 0

/-- Outcome of the external streaming generation service (an opaque
collaborator): it either completes or throws with a message. -/
inductive StreamResult where
  | success : StreamResult
  | failure : String → StreamResult
deriving Repr, DecidableEq

/-- Chunks delivered by the stream are forwarded one at a time to
`handleStreamUpdate` via the chunk callback. -/
def applyChunks (app : AppState) (path : String) (chunks : List String) : AppState :=
  chunks.foldl (fun s c => handleStreamUpdate s path c) app

/-- One run of the generation effect body for the entry at `path`: the
service delivers `chunks` through the callback and then finishes with
`result`; the `catch` branch records the error message and performs no
registry mutation. Returns the resulting app state and the error state. -/
def generateEffect (app : AppState) (path : String) (chunks : List String)
    (result : StreamResult) : AppState × Option String :=
  let app1 := applyChunks app path chunks
  match result with
  | StreamResult.success => (app1, none)
  | StreamResult.failure msg => (app1, some msg)

/-! The registry operations as a transition system, for the reachability
invariant about source-file name uniqueness. -/

/-- One user-or-stream event, with the arguments the handlers receive. -/
inductive Op where
  | create : String → String → List ProjectFile → Op
  | addFiles : String → List ProjectFile → Op
  | chunk : String → String → Op
  | reset : Op
deriving Repr, DecidableEq

/-- Apply one event to the app state via the corresponding handler. -/
def applyOp (s : AppState) : Op → AppState
  | Op.create n p fs => handleGenerationStart s n p fs
  | Op.addFiles p fs => handleAddFilesToProject s p fs
  | Op.chunk p c => handleStreamUpdate s p c
  | Op.reset => handleReset s

/-- Run a sequence of events from a starting state. -/
def runOps (s : AppState) (ops : List Op) : AppState :=
  ops.foldl applyOp s

/-- Names of the source files of every entry in the registry are pairwise
distinct. -/
def sourceNamesNodup (s : AppState) : Prop :=
  ∀ e ∈ s.processedFiles, ((e.2.sourceFiles.map (fun f => f.name)).Nodup : Prop)

instance : DecidablePred sourceNamesNodup := fun s =>
  inferInstanceAs (Decidable (∀ e ∈ s.processedFiles, _))

/-! Supporting lemmas about chunk accumulation. -/

theorem foldl_string_append (cs : List String) (a b : String) :
    cs.foldl (fun r s => r ++ s) (a ++ b) = a ++ cs.foldl (fun r s => r ++ s) b := by
  induction cs generalizing b with
  | nil => rfl
  | cons c cs ih =>
    simp only [List.foldl]
    rw [String.append_assoc, ih]

theorem string_join_cons (c : String) (cs : List String) :
    String.join (c :: cs) = c ++ String.join cs := by
  unfold String.join
  simp only [List.foldl]
  rw [String.empty_append, ← foldl_string_append cs c "", String.append_empty]

/-- The `handleStreamUpdate` transition, characterised through lookups. -/
theorem handleStreamUpdate_find? (s : AppState) (p chunk : String) :
    (s.processedFiles.find? p = none → handleStreamUpdate s p chunk = s) ∧
    (∀ f, s.processedFiles.find? p = some f →
      (handleStreamUpdate s p chunk).processedFiles.find? p =
        some { f with generatedHtml := f.generatedHtml ++ chunk } ∧
      (∀ q, q ≠ p → (handleStreamUpdate s p chunk).processedFiles.find? q =
        s.processedFiles.find? q) ∧
      (handleStreamUpdate s p chunk).activeFile = s.activeFile) := by
  constructor
  · intro h
    unfold handleStreamUpdate
    rw [h]
  · intro f hf
    unfold handleStreamUpdate
    rw [hf]
    exact ⟨Registry.find?_set_self _ _ _, fun q hq => Registry.find?_set_ne _ _ _ _ hq, rfl⟩

/-! Claim C4: `createEntry` (= `handleGenerationStart`). -/

/-- C4: `createEntry(name, path, sourceFiles)` maps `path` to a fresh
entry with the given fields and empty `generatedHtml`, sets the active
pointer to `path`, replaces any prior entry at `path` wholesale, and
leaves every other path's entry unchanged. -/
theorem createEntry_spec (s : AppState) (name path : String)
    (fs : List ProjectFile) :
    (handleGenerationStart s name path fs).processedFiles.find? path =
      some { name := name, path := path, sourceFiles := fs, generatedHtml := "" } ∧
    (handleGenerationStart s name path fs).activeFile = some path ∧
    ∀ q, q ≠ path →
      (handleGenerationStart s name path fs).processedFiles.find? q =
        s.processedFiles.find? q :=
  ⟨Registry.find?_set_self _ _ _, rfl,
    fun _ hq => Registry.find?_set_ne _ _ _ _ hq⟩

/-- Witness for C4 at a concrete input. -/
theorem createEntry_spec_witness :
    (handleGenerationStart AppState.initial "n" "p"
        [{ name := "a", code := "1" }]).processedFiles.find? "q" =
      AppState.initial.processedFiles.find? "q" :=
  (createEntry_spec AppState.initial "n" "p"
    [{ name := "a", code := "1" }]).2.2 "q" (by decide)

/-! Claim C5: `reset` clears everything and makes later chunk appends
no-ops. -/

/-- C5: after `reset()` the registry is empty and the active pointer is
cleared, and `appendOutputChunk` on any path (in particular any
previously valid key) leaves the state unchanged. -/
theorem reset_spec (s : AppState) (p chunk : String) :
    (handleReset s).processedFiles = [] ∧
    (handleReset s).activeFile = none ∧
    handleStreamUpdate (handleReset s) p chunk = handleReset s :=
  ⟨rfl, rfl, rfl⟩

/-! Claim C2: `appendOutputChunk` (= `handleStreamUpdate`). -/

/-- C2: `appendOutputChunk(path, chunk)` is a no-op when `path` is not a
key; otherwise it only extends that entry's `generatedHtml` by `chunk`,
leaving other entries and the active pointer unchanged; and from an entry
with empty output, the chunks "a", "b", "c" in order accumulate to
"abc". -/
theorem appendOutputChunk_spec (s : AppState) (p chunk : String) :
    (s.processedFiles.find? p = none → handleStreamUpdate s p chunk = s) ∧
    (∀ f, s.processedFiles.find? p = some f →
      (handleStreamUpdate s p chunk).processedFiles.find? p =
        some { f with generatedHtml := f.generatedHtml ++ chunk } ∧
      (∀ q, q ≠ p → (handleStreamUpdate s p chunk).processedFiles.find? q =
        s.processedFiles.find? q) ∧
      (handleStreamUpdate s p chunk).activeFile = s.activeFile) ∧
    (∀ f, s.processedFiles.find? p = some f → f.generatedHtml = "" →
      (handleStreamUpdate (handleStreamUpdate (handleStreamUpdate s p "a") p "b")
          p "c").processedFiles.find? p =
        some { f with generatedHtml := "abc" }) := by
  refine ⟨(handleStreamUpdate_find? s p chunk).1,
    (handleStreamUpdate_find? s p chunk).2, ?_⟩
  intro f hf hempty
  have h1 := ((handleStreamUpdate_find? s p "a").2 f hf).1
  have h2 := ((handleStreamUpdate_find? (handleStreamUpdate s p "a") p "b").2 _ h1).1
  have h3 := ((handleStreamUpdate_find? (handleStreamUpdate (handleStreamUpdate s p "a") p "b")
    p "c").2 _ h2).1
  rw [h3, hempty]
  rfl

/-- Witness for C2 at a concrete input. -/
theorem appendOutputChunk_spec_witness :
    (handleStreamUpdate
        (handleStreamUpdate
          (handleStreamUpdate (handleGenerationStart AppState.initial "n" "p" []) "p" "a")
          "p" "b")
        "p" "c").processedFiles.find? "p" =
      some { name := "n", path := "p", sourceFiles := [], generatedHtml := "abc" } :=
  (appendOutputChunk_spec (handleGenerationStart AppState.initial "n" "p" []) "p" "z").2.2
    { name := "n", path := "p", sourceFiles := [], generatedHtml := "" }
    (by decide) (by decide)

/-! Claim C1: `appendSourceFiles` (= `handleAddFilesToProject`). -/

/-- C1: `appendSourceFiles(path, newFiles)` is a no-op when `path` is not
a key or when every new file's name is already present; otherwise it
appends exactly the uniquely-named subset of `newFiles` (in their
original relative order, via `filter`), resets that entry's
`generatedHtml` to `""`, and leaves other entries, the entry's other
fields and the active pointer unchanged. -/
theorem appendSourceFiles_spec (s : AppState) (p : String)
    (nf : List ProjectFile) :
    (s.processedFiles.find? p = none → handleAddFilesToProject s p nf = s) ∧
    (∀ proj, s.processedFiles.find? p = some proj →
      (nf.filter
          (fun f => !((proj.sourceFiles.map (fun g => g.name)).contains f.name)) = [] →
        handleAddFilesToProject s p nf = s) ∧
      (nf.filter
          (fun f => !((proj.sourceFiles.map (fun g => g.name)).contains f.name)) ≠ [] →
        (handleAddFilesToProject s p nf).processedFiles.find? p =
          some { proj with
            sourceFiles := proj.sourceFiles ++ nf.filter
              (fun f => !((proj.sourceFiles.map (fun g => g.name)).contains f.name))
            generatedHtml := "" } ∧
        (∀ q, q ≠ p → (handleAddFilesToProject s p nf).processedFiles.find? q =
          s.processedFiles.find? q) ∧
        (handleAddFilesToProject s p nf).activeFile = s.activeFile)) := by
  constructor
  · intro h
    unfold handleAddFilesToProject
    rw [h]
  · intro proj hf
    constructor
    · intro hdup
      unfold handleAddFilesToProject
      rw [hf]
      simp only [hdup, List.isEmpty_nil, if_pos]
    · intro huniq
      unfold handleAddFilesToProject
      rw [hf]
      simp only []
      rw [if_neg (by simpa [List.isEmpty_iff] using huniq)]
      exact ⟨Registry.find?_set_self _ _ _,
        fun q hq => Registry.find?_set_ne _ _ _ _ hq, rfl⟩

/-- The running example of the spec: the entry of a project at path
"proj" holding "a.js", with some already-generated output. -/
def demoProjEntry : ProcessedFile :=
  { name := "proj", path := "proj",
    sourceFiles := [{ name := "a.js", code := "1" }],
    generatedHtml := "old" }

/-- The running example of the spec: a registry holding `demoProjEntry`,
with "proj" active. -/
def demoProjState : AppState :=
  { processedFiles := [("proj", demoProjEntry)], activeFile := some "proj" }

/-- Witness for C1: adding ["a.js", "b.js"] to the demo project appends
only "b.js" and resets the output. -/
theorem appendSourceFiles_spec_witness :
    (handleAddFilesToProject demoProjState "proj"
        [{ name := "a.js", code := "2" }, { name := "b.js", code := "3" }]).processedFiles.find?
        "proj" =
      some { demoProjEntry with
        sourceFiles := [{ name := "a.js", code := "1" }, { name := "b.js", code := "3" }]
        generatedHtml := "" } :=
  (((appendSourceFiles_spec demoProjState "proj"
      [{ name := "a.js", code := "2" }, { name := "b.js", code := "3" }]).2
    demoProjEntry (by decide)).2 (by decide)).1

/-! Claim C10: chunk accumulation is a concatenation homomorphism. -/

theorem map_overwrite_id (r : Registry) (p : String) (f : ProcessedFile)
    (h : ∀ e ∈ r, (e.1 == p) = false) :
    r.map (fun e => if e.1 == p then (p, f) else e) = r := by
  have : r.map (fun e => if e.1 == p then (p, f) else e) = r.map id := by
    apply List.map_congr_left
    intro e he
    rw [h e he]
    rfl
  rw [this, List.map_id]

theorem set_set (r : Registry) (p : String) (f1 f2 : ProcessedFile) :
    (r.set p f1).set p f2 = r.set p f2 := by
  unfold Registry.set
  by_cases hany : r.any (fun e => e.1 == p) = true
  · rw [if_pos hany, if_pos hany]
    obtain ⟨e, he, hep⟩ := List.any_eq_true.mp hany
    rw [if_pos (List.any_eq_true.mpr
      ⟨(p, f1), List.mem_map.mpr ⟨e, he, by simp [hep]⟩, by simp⟩)]
    rw [List.map_map]
    apply List.map_congr_left
    intro a _
    by_cases ha : (a.1 == p) = true
    · simp only [Function.comp, ha, if_pos]
      simp
    · have ha' : (a.1 == p) = false := by simpa using ha
      simp only [Function.comp, ha', Bool.false_eq_true, if_neg, if_false]
  · rw [if_neg hany, if_neg hany]
    have hany' : r.any (fun e => e.1 == p) = false := by
      cases h : r.any (fun e => e.1 == p)
      · rfl
      · exact absurd h hany
    have hall : ∀ x ∈ r, ¬ (x.1 == p) = true := List.any_eq_false.mp hany'
    rw [if_pos (by
      rw [List.any_append]
      simp)]
    rw [List.map_append, map_overwrite_id r p f2 (by
      intro e he
      cases hb : e.1 == p
      · rfl
      · exact absurd hb (hall e he))]
    simp

theorem set_preserve (r : Registry) (p : String) (f : ProcessedFile)
    (hk : (r.map Prod.fst).Nodup)
    (hf : List.find? (fun e => e.1 == p) r = some (p, f)) :
    r.set p f = r := by
  unfold Registry.set
  rw [if_pos (by rw [any_eq_isSome_find?, hf]; rfl)]
  induction r with
  | nil => simp at hf
  | cons e r ih =>
    by_cases hep : (e.1 == p) = true
    · have hfind : List.find? (fun x => x.1 == p) (e :: r) = some e :=
        List.find?_cons_of_pos r hep
      rw [hfind] at hf
      have he : e = (p, f) := by injection hf
      subst he
      rw [List.map_cons] at hk
      have hp := (List.nodup_cons.mp hk).1
      rw [List.map_cons, if_pos hep, map_overwrite_id r p f]
      intro a ha
      cases hb : a.1 == p
      · rfl
      · exact absurd (List.mem_map.mpr ⟨a, ha, eq_of_beq hb⟩) hp
    · have hep' : (e.1 == p) = false := by simpa using hep
      have hfind : List.find? (fun x => x.1 == p) (e :: r) =
          List.find? (fun x => x.1 == p) r :=
        List.find?_cons_of_neg r (by simp [hep'])
      rw [hfind] at hf
      rw [List.map_cons] at hk
      rw [List.map_cons, if_neg (by simp [hep']),
        ih (List.nodup_cons.mp hk).2 hf]

theorem registry_find?_pair (r : Registry) (p : String) (f : ProcessedFile)
    (hf : r.find? p = some f) :
    List.find? (fun e => e.1 == p) r = some (p, f) := by
  unfold Registry.find? at hf
  cases h : List.find? (fun e => e.1 == p) r with
  | none => rw [h] at hf; simp at hf
  | some e =>
    rw [h] at hf
    have h2 : e.2 = f := by injection hf
    have hba := List.find?_some h
    have h1 : e.1 = p := eq_of_beq hba
    exact congrArg some (Prod.ext h1 h2)

/-- The entry `f` with its `generatedHtml` replaced by `g` (shorthand for
the record update the handlers perform). -/
def withHtml (f : ProcessedFile) (g : String) : ProcessedFile :=
  { f with generatedHtml := g }

/-- The state `s` with its registry replaced by `r` (shorthand for the
record update the handlers perform). -/
def withFiles (s : AppState) (r : Registry) : AppState :=
  { s with processedFiles := r }

theorem handleStreamUpdate_eq (s : AppState) (p chunk : String)
    (f : ProcessedFile) (hf : s.processedFiles.find? p = some f) :
    handleStreamUpdate s p chunk =
      withFiles s (s.processedFiles.set p (withHtml f (f.generatedHtml ++ chunk))) := by
  unfold handleStreamUpdate
  rw [hf]
  rfl

/-- C10: for a registry whose keys are distinct (as JS object keys always
are), appending chunk `a` and then chunk `b` at path `p` equals appending
`a ++ b` once, and appending the empty chunk changes nothing: the final
output depends only on the concatenation of the delivered chunks. -/
theorem appendOutputChunk_hom (s : AppState) (p a b : String)
    (hk : (s.processedFiles.map Prod.fst).Nodup) :
    handleStreamUpdate (handleStreamUpdate s p a) p b =
      handleStreamUpdate s p (a ++ b) ∧
    handleStreamUpdate s p "" = s := by
  constructor
  · cases hf : s.processedFiles.find? p with
    | none =>
      rw [(handleStreamUpdate_find? s p a).1 hf, (handleStreamUpdate_find? s p b).1 hf,
        (handleStreamUpdate_find? s p (a ++ b)).1 hf]
    | some f =>
      rw [handleStreamUpdate_eq s p a f hf]
      rw [handleStreamUpdate_eq _ p b (withHtml f (f.generatedHtml ++ a))
        (Registry.find?_set_self _ _ _)]
      rw [handleStreamUpdate_eq s p (a ++ b) f hf]
      unfold withFiles withHtml
      simp only []
      rw [set_set, String.append_assoc]
  · cases hf : s.processedFiles.find? p with
    | none => exact (handleStreamUpdate_find? s p "").1 hf
    | some f =>
      rw [handleStreamUpdate_eq s p "" f hf]
      unfold withFiles withHtml
      rw [String.append_empty]
      rw [set_preserve s.processedFiles p f hk (registry_find?_pair _ _ _ hf)]

/-- Witness for C10 at a concrete input. -/
theorem appendOutputChunk_hom_witness :
    handleStreamUpdate (handleStreamUpdate demoProjState "proj" "a") "proj" "b" =
      handleStreamUpdate demoProjState "proj" ("a" ++ "b") ∧
    handleStreamUpdate demoProjState "proj" "" = demoProjState :=
  appendOutputChunk_hom demoProjState "proj" "a" "b" (by decide)

/-! Claim C3: uniqueness of source-file names within an entry. -/

/-- An event whose file-list argument is itself free of duplicate names
(`createEntry`'s initial files, `appendSourceFiles`' new files). -/
def Op.goodArgs : Op → Prop
  | Op.create _ _ fs => ((fs.map (fun f => f.name)).Nodup : Prop)
  | Op.addFiles _ nf => ((nf.map (fun f => f.name)).Nodup : Prop)
  | Op.chunk _ _ => True
  | Op.reset => True

instance : DecidablePred Op.goodArgs := fun op => by
  cases op with
  | create n p fs => exact inferInstanceAs (Decidable ((fs.map (fun f => f.name)).Nodup))
  | addFiles p nf => exact inferInstanceAs (Decidable ((nf.map (fun f => f.name)).Nodup))
  | chunk p c => exact inferInstanceAs (Decidable True)
  | reset => exact inferInstanceAs (Decidable True)

theorem set_forall_entries (P : ProcessedFile → Prop) (r : Registry) (p : String)
    (f : ProcessedFile) (hr : ∀ e ∈ r, P e.2) (hf : P f) :
    ∀ e ∈ r.set p f, P e.2 := by
  intro e he
  unfold Registry.set at he
  by_cases hany : r.any (fun x => x.1 == p) = true
  · rw [if_pos hany] at he
    obtain ⟨a, ha, heq⟩ := List.mem_map.mp he
    by_cases h : (a.1 == p) = true
    · rw [if_pos h] at heq
      rw [← heq]
      exact hf
    · rw [if_neg h] at heq
      rw [← heq]
      exact hr a ha
  · rw [if_neg hany] at he
    rcases List.mem_append.mp he with h | h
    · exact hr e h
    · rw [List.mem_singleton.mp h]
      exact hf

theorem addFiles_entry_nodup (old nf : List ProjectFile)
    (hold : (old.map (fun f => f.name)).Nodup)
    (hnf : (nf.map (fun f => f.name)).Nodup) :
    ((old ++ nf.filter
        (fun f => !((old.map (fun g => g.name)).contains f.name))).map
      (fun f => f.name)).Nodup := by
  rw [List.map_append, List.nodup_append]
  refine ⟨hold, hnf.sublist ((List.filter_sublist nf).map (fun f => f.name)), ?_⟩
  intro x hx hx2
  obtain ⟨f, hfmem, rfl⟩ := List.mem_map.mp hx2
  have hpred : (!((old.map (fun g => g.name)).contains f.name)) = true :=
    (List.mem_filter.mp hfmem).2
  have hcont : (old.map (fun g => g.name)).contains f.name = false := by
    simpa using hpred
  have htrue : (old.map (fun g => g.name)).elem f.name = true := List.elem_iff.mpr hx
  rw [show ((old.map (fun g => g.name)).contains f.name) =
    ((old.map (fun g => g.name)).elem f.name) from rfl] at hcont
  rw [hcont] at htrue
  exact Bool.false_ne_true htrue

/-- The entry produced by a successful `handleAddFilesToProject` merge. -/
def mergedEntry (proj : ProcessedFile) (nf : List ProjectFile) : ProcessedFile :=
  { proj with
    sourceFiles := proj.sourceFiles ++ nf.filter
      (fun f => !((proj.sourceFiles.map (fun g => g.name)).contains f.name))
    generatedHtml := "" }

theorem handleAddFilesToProject_eq (s : AppState) (p : String)
    (nf : List ProjectFile) (proj : ProcessedFile)
    (hf : s.processedFiles.find? p = some proj)
    (hne : (nf.filter
        (fun f => !((proj.sourceFiles.map (fun g => g.name)).contains f.name))).isEmpty
      = false) :
    handleAddFilesToProject s p nf =
      withFiles s (s.processedFiles.set p (mergedEntry proj nf)) := by
  unfold handleAddFilesToProject
  rw [hf]
  simp only []
  rw [if_neg (by intro h; rw [hne] at h; exact Bool.false_ne_true h)]
  rfl

theorem applyOp_preserves_nodup (s : AppState) (op : Op)
    (hs : sourceNamesNodup s) (hop : op.goodArgs) :
    sourceNamesNodup (applyOp s op) := by
  have hs' : ∀ e ∈ s.processedFiles,
      ((e.2.sourceFiles.map (fun f => f.name)).Nodup : Prop) := hs
  cases op with
  | create n p fs =>
    show sourceNamesNodup (handleGenerationStart s n p fs)
    intro e he
    have he' : e ∈ s.processedFiles.set p
        { name := n, path := p, sourceFiles := fs, generatedHtml := "" } := he
    have hopn : ((fs.map (fun g => g.name)).Nodup : Prop) := hop
    exact set_forall_entries (fun f => ((f.sourceFiles.map (fun g => g.name)).Nodup : Prop)) _ _ _ hs' hopn e he'
  | addFiles p nf =>
    show sourceNamesNodup (handleAddFilesToProject s p nf)
    cases hf : s.processedFiles.find? p with
    | none =>
      rw [show handleAddFilesToProject s p nf = s by
        unfold handleAddFilesToProject; rw [hf]]
      exact hs
    | some proj =>
      have hproj : (proj.sourceFiles.map (fun g => g.name)).Nodup :=
        hs (p, proj) (List.mem_of_find?_eq_some (registry_find?_pair _ _ _ hf))
      cases hempty : (nf.filter
          (fun f => !((proj.sourceFiles.map (fun g => g.name)).contains f.name))).isEmpty with
      | true =>
        rw [show handleAddFilesToProject s p nf = s by
          unfold handleAddFilesToProject; rw [hf]; simp only []; rw [if_pos hempty]]
        exact hs
      | false =>
        rw [handleAddFilesToProject_eq s p nf proj hf hempty]
        intro e he
        have hopn : ((nf.map (fun g => g.name)).Nodup : Prop) := hop
        exact set_forall_entries (fun f => ((f.sourceFiles.map (fun g => g.name)).Nodup : Prop)) _ _ _ hs'
          (addFiles_entry_nodup proj.sourceFiles nf hproj hopn) e he
  | chunk p c =>
    show sourceNamesNodup (handleStreamUpdate s p c)
    cases hf : s.processedFiles.find? p with
    | none =>
      rw [(handleStreamUpdate_find? s p c).1 hf]
      exact hs
    | some f =>
      rw [handleStreamUpdate_eq s p c f hf]
      intro e he
      refine set_forall_entries (fun f => ((f.sourceFiles.map (fun g => g.name)).Nodup : Prop)) _ _ _ hs' ?_ e he
      exact hs (p, f) (List.mem_of_find?_eq_some (registry_find?_pair _ _ _ hf))
  | reset =>
    show sourceNamesNodup (handleReset s)
    intro e he
    exact absurd he (List.not_mem_nil e)

theorem runOps_preserves_nodup (ops : List Op) (s : AppState)
    (hs : sourceNamesNodup s) (hops : ∀ op ∈ ops, op.goodArgs) :
    sourceNamesNodup (runOps s ops) := by
  induction ops generalizing s with
  | nil => exact hs
  | cons op ops ih =>
    exact ih (applyOp s op)
      (applyOp_preserves_nodup s op hs (hops op (List.mem_cons_self op ops)))
      (fun o ho => hops o (List.mem_cons_of_mem op ho))

/-- An event sequence whose `addFiles` batch repeats the name "x". -/
def dupNameOps : List Op :=
  [Op.create "p" "p" [],
   Op.addFiles "p" [{ name := "x", code := "1" }, { name := "x", code := "2" }]]

/-- C3 counterexample: from the empty registry, `createEntry` at "p"
followed by `appendSourceFiles` with two distinct files both named "x"
yields an entry whose source-file names are not pairwise distinct — the
merge filters only against names already in the entry, not within the new
batch. -/
theorem sourceNames_unique_counterexample :
    ¬ sourceNamesNodup (runOps AppState.initial dupNameOps) := by
  decide

/-- C3 (amended): in every registry state reachable from the empty
registry by `createEntry`, `appendSourceFiles`, `appendOutputChunk` and
`reset` events whose file-list arguments each have pairwise-distinct
names, the source-file names within every entry are pairwise distinct. -/
theorem sourceNames_unique_invariant (ops : List Op)
    (hops : ∀ op ∈ ops, op.goodArgs) :
    sourceNamesNodup (runOps AppState.initial ops) :=
  runOps_preserves_nodup ops AppState.initial
    (fun e he => absurd he (List.not_mem_nil e)) hops

/-- An event sequence with duplicate-free batches exercising every
operation. -/
def goodOpsExample : List Op :=
  [Op.create "p" "p" [{ name := "a", code := "1" }],
   Op.addFiles "p" [{ name := "a", code := "2" }, { name := "b", code := "3" }],
   Op.chunk "p" "out",
   Op.reset,
   Op.create "q" "q" [{ name := "c", code := "4" }]]

/-- Witness for the amended C3 at a concrete event sequence. -/
theorem sourceNames_unique_invariant_witness :
    sourceNamesNodup (runOps AppState.initial goodOpsExample) :=
  sourceNames_unique_invariant goodOpsExample (by decide)

/-! Claim C6: failure of the streaming call preserves accumulated
chunks. -/

theorem applyChunks_cons (s : AppState) (p c : String) (cs : List String) :
    applyChunks s p (c :: cs) = applyChunks (handleStreamUpdate s p c) p cs := rfl

theorem applyChunks_spec (chunks : List String) (s : AppState) (p : String)
    (f : ProcessedFile) (hf : s.processedFiles.find? p = some f) :
    (applyChunks s p chunks).processedFiles.find? p =
      some (withHtml f (f.generatedHtml ++ String.join chunks)) ∧
    (∀ q, q ≠ p → (applyChunks s p chunks).processedFiles.find? q =
      s.processedFiles.find? q) ∧
    (applyChunks s p chunks).activeFile = s.activeFile := by
  induction chunks generalizing s f with
  | nil =>
    refine ⟨?_, fun q _ => rfl, rfl⟩
    show s.processedFiles.find? p = some (withHtml f (f.generatedHtml ++ ""))
    rw [hf, String.append_empty]
    rfl
  | cons c cs ih =>
    have h1 := (handleStreamUpdate_find? s p c).2 f hf
    obtain ⟨ha, hb, hc⟩ := ih (handleStreamUpdate s p c)
      { f with generatedHtml := f.generatedHtml ++ c } h1.1
    refine ⟨?_, ?_, ?_⟩
    · rw [applyChunks_cons, ha, string_join_cons, ← String.append_assoc]
      rfl
    · intro q hq
      rw [applyChunks_cons, hb q hq, h1.2.1 q hq]
    · rw [applyChunks_cons, hc, h1.2.2]

/-- C6: when the streaming call fails with message `msg` after delivering
`chunks`, the effect surfaces exactly that single error message, and the
entry's `generatedHtml` holds exactly the prior output followed by the
concatenation of the delivered chunks — no partial output is discarded
and no other registry mutation happens on the error path. -/
theorem generation_failure_spec (s : AppState) (p : String)
    (f : ProcessedFile) (chunks : List String) (msg : String)
    (hf : s.processedFiles.find? p = some f) :
    (generateEffect s p chunks (StreamResult.failure msg)).2 = some msg ∧
    (generateEffect s p chunks
        (StreamResult.failure msg)).1.processedFiles.find? p =
      some (withHtml f (f.generatedHtml ++ String.join chunks)) ∧
    (∀ q, q ≠ p → (generateEffect s p chunks
        (StreamResult.failure msg)).1.processedFiles.find? q =
      s.processedFiles.find? q) ∧
    (generateEffect s p chunks (StreamResult.failure msg)).1.activeFile =
      s.activeFile := by
  obtain ⟨ha, hb, hc⟩ := applyChunks_spec chunks s p f hf
  exact ⟨rfl, ha, hb, hc⟩

/-- Witness for C6 at a concrete input. -/
theorem generation_failure_spec_witness :
    (generateEffect demoProjState "proj" ["x", "y"]
        (StreamResult.failure "boom")).2 = some "boom" ∧
    (generateEffect demoProjState "proj" ["x", "y"]
        (StreamResult.failure "boom")).1.processedFiles.find? "proj" =
      some (withHtml demoProjEntry
        (demoProjEntry.generatedHtml ++ String.join ["x", "y"])) :=
  ⟨(generation_failure_spec demoProjState "proj" demoProjEntry ["x", "y"]
      "boom" (by decide)).1,
   (generation_failure_spec demoProjState "proj" demoProjEntry ["x", "y"]
      "boom" (by decide)).2.1⟩

/-! Claim C7: exactly one streaming invocation per eligible entry per
trigger. -/

/-- C7: an effect run for an entry with non-empty `sourceFiles` and empty
`generatedHtml` issues exactly one streaming invocation; once a non-empty
chunk has arrived, a re-run issues none (the guard is false); after a
source-file append that actually adds a file, the output is reset to
empty and a re-run issues exactly one invocation again. -/
theorem generation_runs_once (s : AppState) (p : String) (f : ProcessedFile)
    (hf : s.processedFiles.find? p = some f)
    (hsrc : f.sourceFiles ≠ []) (hout : f.generatedHtml = "") :
    effectInvocations (some f) = 1 ∧
    (∀ c : String, c ≠ "" → ∀ f2,
      (handleStreamUpdate s p c).processedFiles.find? p = some f2 →
      effectInvocations (some f2) = 0) ∧
    (∀ nf : List ProjectFile,
      (nf.filter
        (fun g => !((f.sourceFiles.map (fun x => x.name)).contains g.name))).isEmpty
        = false →
      ∀ f2, (handleAddFilesToProject s p nf).processedFiles.find? p = some f2 →
      effectInvocations (some f2) = 1) := by
  refine ⟨?_, ?_, ?_⟩
  · simp [effectInvocations, shouldGenerate, hout, List.length_pos.mpr hsrc]
  · intro c hc f2 h2
    rw [((handleStreamUpdate_find? s p c).2 f hf).1] at h2
    injection h2 with h2
    rw [← h2]
    have hne : f.generatedHtml ++ c ≠ "" := by
      rw [hout, String.empty_append]
      exact hc
    simp [effectInvocations, shouldGenerate, hne]
  · intro nf hne f2 h2
    rw [handleAddFilesToProject_eq s p nf f hf hne] at h2
    have h2' : (s.processedFiles.set p (mergedEntry f nf)).find? p = some f2 := h2
    rw [Registry.find?_set_self] at h2'
    injection h2' with h2'
    rw [← h2']
    have hlen : (mergedEntry f nf).sourceFiles ≠ [] := by
      unfold mergedEntry
      simp only []
      intro h
      exact hsrc (List.append_eq_nil.mp h).1
    have hpos : 0 < (mergedEntry f nf).sourceFiles.length :=
      List.length_pos.mpr hlen
    have hg : (mergedEntry f nf).generatedHtml = "" := rfl
    simp [effectInvocations, shouldGenerate, hpos, hg]

/-- A freshly created entry with one source file and empty output. -/
def freshEntry : ProcessedFile :=
  { name := "p", path := "p",
    sourceFiles := [{ name := "a", code := "1" }], generatedHtml := "" }

/-- Witness for C7 at a concrete input. -/
theorem generation_runs_once_witness :
    effectInvocations (some freshEntry) = 1 :=
  (generation_runs_once
    (handleGenerationStart AppState.initial "p" "p" [{ name := "a", code := "1" }])
    "p" freshEntry (by decide) (by decide) (by decide)).1

/-! Claims C8 and C9: pasted-input validation. -/

/-- The entry created for a pasted submission: keyed by the file name,
holding the single pasted source file, with empty output. -/
def pastedEntry (code fileName : String) : ProcessedFile :=
  { name := fileName, path := fileName,
    sourceFiles := [{ name := fileName, code := code }], generatedHtml := "" }

/-- C8: submitting blank (empty or whitespace-only) code fails with a
validation message and leaves the registry untouched; submitting
non-blank code with a dot-less file name fails likewise; submitting
non-blank code with file name "a.txt" creates a new entry keyed "a.txt"
holding the single pasted source file with empty generated output, and
sets it active with no validation message. -/
theorem pasted_input_validation (app : AppState) (ed : EditorState) :
    (jsTrim ed.pastedCode = "" →
      (handleGenerateFromText app ed).1 = app ∧
      (handleGenerateFromText app ed).2.validationError =
        some "Please paste some code to convert.") ∧
    (jsTrim ed.pastedCode ≠ "" → jsIncludesDot ed.inputFileName = false →
      (handleGenerateFromText app ed).1 = app ∧
      (handleGenerateFromText app ed).2.validationError =
        some "Please provide a valid file name with an extension (e.g., script.js).") ∧
    (jsTrim ed.pastedCode ≠ "" → ed.inputFileName = "a.txt" →
      (handleGenerateFromText app ed).1.processedFiles.find? "a.txt" =
        some (pastedEntry ed.pastedCode "a.txt") ∧
      (handleGenerateFromText app ed).1.activeFile = some "a.txt" ∧
      (handleGenerateFromText app ed).2.validationError = none) := by
  refine ⟨?_, ?_, ?_⟩
  · intro hblank
    unfold handleGenerateFromText
    rw [if_pos (by rw [beq_iff_eq]; exact hblank)]
    exact ⟨rfl, rfl⟩
  · intro hcode hdot
    unfold handleGenerateFromText
    rw [if_neg (by rw [beq_iff_eq]; exact hcode)]
    rw [if_pos (by rw [hdot]; simp)]
    exact ⟨rfl, rfl⟩
  · intro hcode hname
    unfold handleGenerateFromText
    rw [if_neg (by rw [beq_iff_eq]; exact hcode)]
    rw [if_neg (by rw [hname]; decide)]
    unfold processPastedCode handleGenerationStart
    simp only []
    rw [hname]
    exact ⟨Registry.find?_set_self _ _ _, by trivial, by trivial⟩

/-- The editor inputs of the end-to-end pasted-code scenario. -/
def demoEditor (code fileName : String) : EditorState :=
  { pastedCode := code, inputFileName := fileName, validationError := none,
    error := none, imagePreview := none, imageBase64 := none,
    imageMimeType := none }

/-- Witness for C8 at concrete inputs: blank code fails, "notes" fails,
"a.txt" succeeds. -/
theorem pasted_input_validation_witness :
    ((handleGenerateFromText AppState.initial (demoEditor "  " "a.txt")).1 =
        AppState.initial ∧
      (handleGenerateFromText AppState.initial
          (demoEditor "  " "a.txt")).2.validationError =
        some "Please paste some code to convert.") ∧
    ((handleGenerateFromText AppState.initial (demoEditor "print(1)" "notes")).1 =
        AppState.initial ∧
      (handleGenerateFromText AppState.initial
          (demoEditor "print(1)" "notes")).2.validationError =
        some "Please provide a valid file name with an extension (e.g., script.js).") ∧
    (handleGenerateFromText AppState.initial
        (demoEditor "print(1)" "a.txt")).1.processedFiles.find? "a.txt" =
      some (pastedEntry "print(1)" "a.txt") :=
  ⟨(pasted_input_validation AppState.initial (demoEditor "  " "a.txt")).1
    (by decide),
   (pasted_input_validation AppState.initial (demoEditor "print(1)" "notes")).2.1
    (by decide) (by decide),
   ((pasted_input_validation AppState.initial (demoEditor "print(1)" "a.txt")).2.2
    (by decide) rfl).1⟩

/-- C9: a failed validation of the pasted-code submission is non-fatal:
the whole app state (registry and active pointer) is returned unchanged,
and of the editor state only `validationError` changes — the pending form
inputs (pasted code, file name, image fields) and the generation error
field keep their values. -/
theorem validation_failure_frame (app : AppState) (ed : EditorState)
    (h : jsTrim ed.pastedCode = "" ∨ jsTrim ed.inputFileName = "" ∨
      jsIncludesDot ed.inputFileName = false) :
    (handleGenerateFromText app ed).1 = app ∧
    ∃ msg, (handleGenerateFromText app ed).2 =
      { ed with validationError := some msg } := by
  unfold handleGenerateFromText
  by_cases hblank : (jsTrim ed.pastedCode == "") = true
  · rw [if_pos hblank]
    exact ⟨rfl, "Please paste some code to convert.", rfl⟩
  · rw [if_neg hblank]
    have hsecond : (jsTrim ed.inputFileName == "" || !(jsIncludesDot ed.inputFileName))
        = true := by
      rcases h with h | h | h
      · exact absurd (by rw [beq_iff_eq]; exact h) hblank
      · rw [show (jsTrim ed.inputFileName == "") = true by rw [beq_iff_eq]; exact h]
        rfl
      · rw [h]
        simp
    rw [if_pos hsecond]
    exact ⟨rfl,
      "Please provide a valid file name with an extension (e.g., script.js).", rfl⟩

/-- Witness for C9 at a concrete input: failed validation preserves a
non-empty registry and the pending form inputs. -/
theorem validation_failure_frame_witness :
    (handleGenerateFromText demoProjState (demoEditor "code" "notes")).1 =
      demoProjState ∧
    ∃ msg, (handleGenerateFromText demoProjState (demoEditor "code" "notes")).2 =
      { demoEditor "code" "notes" with validationError := some msg } :=
  validation_failure_frame demoProjState (demoEditor "code" "notes")
    (Or.inr (Or.inr (by decide)))
